import Mathlib

/-!
Verification of `analyze_categories.py` (Connecdoku repository).

The script loads a JSON object mapping each word to its list of category
names, inverts it into a category → words index (`defaultdict(list)`,
preserving dict insertion order), filters out "thin" categories (fewer than
4 words, excluding names starting with "Starts with" or "Ends with"), sorts
them by ascending word count (Python's `sorted`, a stable sort), writes them
as JSON, and prints summary statistics.

We embed the pure computation shallowly: Python dicts become ordered
association lists (CPython dicts preserve insertion order and have unique
keys), the `defaultdict` append becomes `addWord`, and the one fallible
arithmetic step (the final percentage, which divides by the number of
non-excluded categories and raises `ZeroDivisionError` when it is zero)
returns an `Option`.
-/

namespace Connecdoku

/-- The input dataset `data/words.json`: an ordered association list from
word to its list of category names, mirroring the loaded Python dict. -/
abbrev Dataset := List (String × List String)

/-- The category index: an ordered association list from category name to
its list of member words, mirroring `categories = defaultdict(list)`. -/
abbrev Index := List (String × List String)

/-- Embeds `categories[category].append(word)` on a `defaultdict(list)`: appends
`w` to the entry of category `c`, creating the entry at the end of the
index (dict insertion order) when `c` is not yet present. -/
def addWord (idx : Index) (c w : String) : Index :=
  match idx with
  | [] => [(c, [w])]
  | (c₀, ws) :: rest =>
    if c₀ = c then (c₀, ws ++ [w]) :: rest else (c₀, ws) :: addWord rest c w

/-- The inner loop `for category in word_categories: categories[category].append(word)`. -/
def stepWord (idx : Index) (w : String) (cs : List String) : Index :=
  cs.foldl (fun i c => addWord i c w) idx

/-- The outer loop over `words_data.items()`, starting from an arbitrary
accumulator (generalisation used for induction). -/
def buildFrom (idx : Index) (d : Dataset) : Index :=
  d.foldl (fun i p => stepWord i p.1 p.2) idx

/-- Embeds `categories`: the reverse mapping category → list of words built by the
nested loops at lines 17–20 of `analyze_categories.py`. -/
def buildCategoryIndex (d : Dataset) : Index :=
  buildFrom [] d

/-- Association-list lookup: the words recorded for category `c`, if the
category is present in the index. -/
def lookupIdx (idx : Index) (c : String) : Option (List String) :=
  match idx with
  | [] => none
  | (c₀, ws) :: rest => if c₀ = c then some ws else lookupIdx rest c

/-- Python's `str.startswith`: the pattern's characters are a prefix of the
string's characters (embedded over character lists so that it evaluates by
kernel reduction). -/
def strStartsWith (s p : String) : Bool :=
  p.toList.isPrefixOf s.toList

/-- The filter condition at lines 25–29: fewer than 4 items and the name
starts with neither "Starts with" nor "Ends with". -/
def isSmall (p : String × List String) : Bool :=
  decide (p.2.length < 4) && !strStartsWith p.1 "Starts with" && !strStartsWith p.1 "Ends with"

/-- Embeds `small_categories` (lines 23–30): the sub-index of thin categories, in
encounter order. -/
def small_categories (idx : Index) : Index :=
  idx.filter isSmall

/-- The sort key comparison of line 33 (`key=lambda x: len(x[1])`). -/
def lenLe (p q : String × List String) : Prop :=
  p.2.length ≤ q.2.length

instance : DecidableRel lenLe :=
  fun p q => Nat.decLe p.2.length q.2.length

instance : IsTotal (String × List String) lenLe :=
  ⟨fun p q => Nat.le_total p.2.length q.2.length⟩

instance : IsTrans (String × List String) lenLe :=
  ⟨fun _ _ _ h h' => Nat.le_trans h h'⟩

/-- Embeds `sorted_small_categories` (line 33): Python's `sorted` is a stable sort;
any stable sort by the same key computes the same list, so we embed it as
insertion sort by word-list length (which is stable). -/
def sorted_small_categories (idx : Index) : Index :=
  List.insertionSort lenLe (small_categories idx)

/-- Embeds `total_categories` (lines 57–63): the number of category names not
starting with an excluded prefix string. -/
def total_categories (idx : Index) : Nat :=
  ((idx.map Prod.fst).filter
    (fun c => !strStartsWith c "Starts with" && !strStartsWith c "Ends with")).length

/-- Embeds `usable_categories` (lines 64–74) exactly as written: each
word list `w` is counted when `len(w) >= 4` and NO category name in the
whole index starts with an excluded prefix string — the inner `any` ranges
over `categories.keys()` and does not depend on the entry being counted. -/
def usable_categories (idx : Index) : Nat :=
  ((idx.map Prod.snd).filter
    (fun w => decide (w.length ≥ 4) &&
      !((idx.map Prod.fst).any
        (fun c => strStartsWith c "Starts with" || strStartsWith c "Ends with")))).length

/-- The percentage `usable_categories/total_categories*100` at line 81:
Python raises `ZeroDivisionError` exactly when the denominator is `0`,
embedded as `none`. -/
def percentage (idx : Index) : Option ℚ :=
  if total_categories idx = 0 then none
  else some ((usable_categories idx : ℚ) / (total_categories idx : ℚ) * 100)

/-- JSON values, the shapes `json.dump` / `json.load` exchange. -/
inductive JsonVal where
  | jnull : JsonVal
  | jbool : Bool → JsonVal
  | jnum : ℚ → JsonVal
  | jstr : String → JsonVal
  | jarr : List JsonVal → JsonVal
  | jobj : List (String × JsonVal) → JsonVal

/-- Reading a JSON string back as a Lean string. -/
def decodeStr : JsonVal → Option String
  | .jstr s => some s
  | _ => none

/-- Reading a JSON array of strings back as a word list. -/
def decodeWords : JsonVal → Option (List String)
  | .jarr vs => vs.mapM decodeStr
  | _ => none

/-- Embeds `json.load` applied to the written file: parsing a JSON object whose
values are arrays of strings back into an ordered association list
(CPython's parser keeps the textual key order). -/
def decodeThin : JsonVal → Option (List (String × List String))
  | .jobj entries => entries.mapM (fun p => (decodeWords p.2).map (fun ws => (p.1, ws)))
  | _ => none

/-- Embeds `json.dump(thin_categories, f, indent=2)` (lines 49–50): the JSON value
written for the thin-categories mapping, keys in mapping order, each word
list as an array of strings. -/
def encodeThin (t : List (String × List String)) : JsonVal :=
  .jobj (t.map (fun p => (p.1, .jarr (p.2.map .jstr))))

/-- The thin-categories mapping that is printed and written (lines 44–47):
the sorted thin list, re-collected into a dict in sorted order. -/
def thin_categories (d : Dataset) : Index :=
  sorted_small_categories (buildCategoryIndex d)

/-- Everything one run of `analyze_categories` computes, bundled: the
category index, the sorted thin-categories mapping, the JSON value written
to `data/thin_categories.json`, and the three printed summary statistics
with the (fallible) percentage. -/
structure AnalyzeOutput where
  index : Index
  thin : Index
  written : JsonVal
  total : Nat
  usable : Nat
  thinCount : Nat
  pct : Option ℚ

/-- One run of the analysis on dataset `d`. -/
def analyze (d : Dataset) : AnalyzeOutput :=
  let idx := buildCategoryIndex d
  ⟨idx, sorted_small_categories idx, encodeThin (sorted_small_categories idx),
    total_categories idx, usable_categories idx,
    (sorted_small_categories idx).length, percentage idx⟩

/-! Lemmas about the index construction -/

theorem lookup_addWord (idx : Index) (c w c' : String) :
    lookupIdx (addWord idx c w) c' =
      if c' = c then some ((lookupIdx idx c).getD [] ++ [w]) else lookupIdx idx c' := by
  induction idx with
  | nil =>
    by_cases h : c' = c
    · subst h; simp [addWord, lookupIdx]
    · have h₂ : ¬ c = c' := fun h' => h h'.symm
      simp [addWord, lookupIdx, h, h₂]
  | cons q rest ih =>
    obtain ⟨c₀, ws⟩ := q
    by_cases hc : c₀ = c
    · subst hc
      by_cases h' : c' = c₀
      · subst h'; simp [addWord, lookupIdx]
      · have h₂ : ¬ c₀ = c' := fun h'' => h' h''.symm
        simp [addWord, lookupIdx, h', h₂]
    · by_cases h' : c₀ = c'
      · subst h'
        simp [addWord, lookupIdx, hc]
      · simp [addWord, lookupIdx, hc, h', ih]

theorem lookup_stepWord (idx : Index) (w : String) (cs : List String) (c : String)
    (hnd : cs.Nodup) :
    lookupIdx (stepWord idx w cs) c =
      if c ∈ cs then some ((lookupIdx idx c).getD [] ++ [w]) else lookupIdx idx c := by
  induction cs generalizing idx with
  | nil => simp [stepWord]
  | cons c₀ cs ih =>
    have hnotin : c₀ ∉ cs := (List.nodup_cons.mp hnd).1
    have hnd' : cs.Nodup := (List.nodup_cons.mp hnd).2
    have hstep : stepWord idx w (c₀ :: cs) = stepWord (addWord idx c₀ w) w cs := rfl
    rw [hstep, ih _ hnd']
    by_cases hc : c = c₀
    · subst hc
      simp [hnotin, lookup_addWord]
    · rw [lookup_addWord]
      simp [hc, List.mem_cons]

theorem mem_keys_addWord (idx : Index) (c w c' : String) :
    c' ∈ (addWord idx c w).map Prod.fst ↔ c' ∈ idx.map Prod.fst ∨ c' = c := by
  induction idx with
  | nil => simp [addWord, eq_comm]
  | cons q rest ih =>
    obtain ⟨c₀, ws⟩ := q
    by_cases hc : c₀ = c
    · subst hc
      have hres : addWord ((c₀, ws) :: rest) c₀ w = (c₀, ws ++ [w]) :: rest := by
        simp [addWord]
      rw [hres]
      simp only [List.map_cons, List.mem_cons]
      tauto
    · simp only [addWord, if_neg hc, List.map_cons, List.mem_cons]
      rw [ih]
      tauto

theorem mem_keys_stepWord (idx : Index) (w : String) (cs : List String) (c' : String) :
    c' ∈ (stepWord idx w cs).map Prod.fst ↔ c' ∈ idx.map Prod.fst ∨ c' ∈ cs := by
  induction cs generalizing idx with
  | nil => simp [stepWord]
  | cons c₀ cs ih =>
    have hstep : stepWord idx w (c₀ :: cs) = stepWord (addWord idx c₀ w) w cs := rfl
    rw [hstep, ih, mem_keys_addWord]
    simp [List.mem_cons]
    tauto

theorem mem_keys_buildFrom (idx : Index) (d : Dataset) (c : String) :
    c ∈ (buildFrom idx d).map Prod.fst ↔ c ∈ idx.map Prod.fst ∨ ∃ p ∈ d, c ∈ p.2 := by
  induction d generalizing idx with
  | nil => simp [buildFrom]
  | cons p d ih =>
    have hstep : buildFrom idx (p :: d) = buildFrom (stepWord idx p.1 p.2) d := rfl
    rw [hstep, ih, mem_keys_stepWord]
    simp [List.mem_cons]
    tauto

theorem mem_keys_build (d : Dataset) (c : String) :
    c ∈ (buildCategoryIndex d).map Prod.fst ↔ ∃ p ∈ d, c ∈ p.2 := by
  rw [buildCategoryIndex, mem_keys_buildFrom]
  simp

theorem lookup_none_iff (idx : Index) (c : String) :
    lookupIdx idx c = none ↔ c ∉ idx.map Prod.fst := by
  induction idx with
  | nil => simp [lookupIdx]
  | cons q rest ih =>
    obtain ⟨c₀, ws⟩ := q
    by_cases h : c₀ = c
    · subst h; simp [lookupIdx]
    · have h₂ : ¬ c = c₀ := fun h' => h h'.symm
      simp [lookupIdx, h, ih, h₂]

theorem lookup_some_mem (idx : Index) (c : String) (ws : List String)
    (h : lookupIdx idx c = some ws) : (c, ws) ∈ idx := by
  induction idx with
  | nil => simp [lookupIdx] at h
  | cons q rest ih =>
    obtain ⟨c₀, ws₀⟩ := q
    by_cases hc : c₀ = c
    · subst hc
      simp [lookupIdx] at h
      simp [h]
    · simp only [lookupIdx, if_neg hc] at h
      exact List.mem_cons_of_mem _ (ih h)

theorem getD_lookup_buildFrom (d : Dataset) (idx : Index) (c : String)
    (h : ∀ p ∈ d, p.2.Nodup) :
    (lookupIdx (buildFrom idx d) c).getD [] =
      (lookupIdx idx c).getD [] ++ ((d.filter (fun p => decide (c ∈ p.2))).map Prod.fst) := by
  induction d generalizing idx with
  | nil => simp [buildFrom]
  | cons p d ih =>
    have hstep : buildFrom idx (p :: d) = buildFrom (stepWord idx p.1 p.2) d := rfl
    have hp : p.2.Nodup := h p (List.mem_cons_self p d)
    have hd : ∀ q ∈ d, q.2.Nodup := fun q hq => h q (List.mem_cons_of_mem p hq)
    rw [hstep, ih _ hd, lookup_stepWord idx p.1 p.2 c hp]
    by_cases hc : c ∈ p.2
    · simp [hc, List.filter_cons]
    · simp [hc, List.filter_cons]

theorem getD_lookup_build (d : Dataset) (c : String) (h : ∀ p ∈ d, p.2.Nodup) :
    (lookupIdx (buildCategoryIndex d) c).getD [] =
      (d.filter (fun p => decide (c ∈ p.2))).map Prod.fst := by
  rw [buildCategoryIndex, getD_lookup_buildFrom d [] c h]
  simp [lookupIdx]

theorem nonempty_addWord (idx : Index) (c w : String)
    (h : ∀ p ∈ idx, p.2 ≠ []) : ∀ p ∈ addWord idx c w, p.2 ≠ [] := by
  induction idx with
  | nil =>
    intro p hp
    simp [addWord] at hp
    simp [hp]
  | cons q rest ih =>
    obtain ⟨c₀, ws⟩ := q
    intro p hp
    by_cases hc : c₀ = c
    · subst hc
      have hres : addWord ((c₀, ws) :: rest) c₀ w = (c₀, ws ++ [w]) :: rest := by
        simp [addWord]
      rw [hres] at hp
      rcases List.mem_cons.mp hp with h' | h'
      · subst h'; simp
      · exact h p (List.mem_cons_of_mem _ h')
    · simp only [addWord, if_neg hc] at hp
      rcases List.mem_cons.mp hp with h' | h'
      · subst h'; exact h (c₀, ws) (List.mem_cons_self _ _)
      · exact ih (fun q hq => h q (List.mem_cons_of_mem _ hq)) p h'

theorem nonempty_stepWord (idx : Index) (w : String) (cs : List String)
    (h : ∀ p ∈ idx, p.2 ≠ []) : ∀ p ∈ stepWord idx w cs, p.2 ≠ [] := by
  induction cs generalizing idx with
  | nil => exact h
  | cons c₀ cs ih =>
    have hstep : stepWord idx w (c₀ :: cs) = stepWord (addWord idx c₀ w) w cs := rfl
    rw [hstep]
    exact ih _ (nonempty_addWord idx c₀ w h)

theorem nonempty_buildFrom (d : Dataset) (idx : Index)
    (h : ∀ p ∈ idx, p.2 ≠ []) : ∀ p ∈ buildFrom idx d, p.2 ≠ [] := by
  induction d generalizing idx with
  | nil => exact h
  | cons p d ih =>
    have hstep : buildFrom idx (p :: d) = buildFrom (stepWord idx p.1 p.2) d := rfl
    rw [hstep]
    exact ih _ (nonempty_stepWord idx p.1 p.2 h)

/-! Lemmas about the stable sort -/

theorem filter_orderedInsert (n : Nat) (a : String × List String) (l : Index) :
    (List.orderedInsert lenLe a l).filter (fun p => decide (p.2.length = n)) =
      if a.2.length = n then a :: l.filter (fun p => decide (p.2.length = n))
      else l.filter (fun p => decide (p.2.length = n)) := by
  induction l with
  | nil => by_cases h : a.2.length = n <;> simp [List.orderedInsert, List.filter, h]
  | cons b l ih =>
    by_cases hab : lenLe a b
    · rw [List.orderedInsert_of_le _ _ hab]
      by_cases h : a.2.length = n <;> simp [List.filter_cons, h]
    · have hres : List.orderedInsert lenLe a (b :: l) = b :: List.orderedInsert lenLe a l := by
        simp [List.orderedInsert, hab]
      rw [hres]
      have hblt : b.2.length < a.2.length := Nat.lt_of_not_le hab
      by_cases h : a.2.length = n
      · have hb : ¬ b.2.length = n := by omega
        simp [List.filter_cons, hb, ih, h]
      · simp [List.filter_cons, ih, h]

theorem filter_insertionSort (n : Nat) (l : Index) :
    (List.insertionSort lenLe l).filter (fun p => decide (p.2.length = n)) =
      l.filter (fun p => decide (p.2.length = n)) := by
  induction l with
  | nil => rfl
  | cons a l ih =>
    rw [List.insertionSort, filter_orderedInsert, ih]
    by_cases h : a.2.length = n <;> simp [List.filter_cons, h]

/-! Lemmas about the JSON round-trip -/

theorem decodeWords_encode (ws : List String) :
    decodeWords (.jarr (ws.map .jstr)) = some ws := by
  induction ws with
  | nil => rfl
  | cons w ws ih =>
    simp only [decodeWords, List.map_cons, List.mapM_cons] at *
    simp only [decodeStr]
    rw [show (List.mapM decodeStr (ws.map .jstr)) = some ws from ih]
    rfl

theorem decodeThin_encodeThin (t : List (String × List String)) :
    decodeThin (encodeThin t) = some t := by
  induction t with
  | nil => rfl
  | cons p t ih =>
    simp only [encodeThin, decodeThin, List.map_cons, List.mapM_cons] at *
    rw [decodeWords_encode]
    rw [show (List.mapM (fun p => (decodeWords p.2).map (fun ws => (p.1, ws)))
      (t.map (fun p => (p.1, JsonVal.jarr (p.2.map .jstr)))) = some t) from ih]
    rfl

theorem not_nonexcluded_iff (a b : Bool) : ¬ ((!a && !b) = true) ↔ (a || b) = true := by
  cases a <;> cases b <;> simp

/-! Claim theorems -/

/-- Claim C2: a category entry appears in the filtered thin-categories result
if and only if it is an entry of the index whose word-list length is strictly
less than 4 and whose name starts with neither "Starts with" nor "Ends with". -/
theorem thin_filter_correct (idx : Index) (p : String × List String) :
    p ∈ small_categories idx ↔
      p ∈ idx ∧ p.2.length < 4 ∧
      strStartsWith p.1 "Starts with" = false ∧ strStartsWith p.1 "Ends with" = false := by
  simp [small_categories, List.mem_filter, isSmall, and_assoc]

/-- Claim C3: when no word lists the same category twice (and word keys are
unique, as in a Python dict), every word appears exactly once in the index's
word list for each of its categories, and each category's word list is
exactly the words that carry that category, in first-seen scan order. -/
theorem index_completeness (d : Dataset)
    (hkeys : (d.map Prod.fst).Nodup) (hcats : ∀ p ∈ d, p.2.Nodup)
    (w : String) (cs : List String) (hw : (w, cs) ∈ d) (c : String) (hc : c ∈ cs) :
    ((lookupIdx (buildCategoryIndex d) c).getD []).count w = 1 ∧
    (lookupIdx (buildCategoryIndex d) c).getD [] =
      (d.filter (fun p => decide (c ∈ p.2))).map Prod.fst := by
  have heq := getD_lookup_build d c hcats
  refine ⟨?_, heq⟩
  rw [heq]
  have hmem : (w, cs) ∈ d.filter (fun p => decide (c ∈ p.2)) :=
    List.mem_filter.mpr ⟨hw, by simpa using hc⟩
  have hwmem : w ∈ (d.filter (fun p => decide (c ∈ p.2))).map Prod.fst :=
    List.mem_map.mpr ⟨(w, cs), hmem, rfl⟩
  have hnd : ((d.filter (fun p => decide (c ∈ p.2))).map Prod.fst).Nodup := by
    have hsub : List.Sublist ((d.filter (fun p => decide (c ∈ p.2))).map Prod.fst)
        (d.map Prod.fst) :=
      (List.filter_sublist d).map Prod.fst
    exact hkeys.sublist hsub
  exact List.count_eq_one_of_mem hnd hwmem

theorem index_completeness_witness :
    (((([("cat", ["Fruit"])] : Dataset).map Prod.fst).Nodup) ∧
      (∀ p ∈ ([("cat", ["Fruit"])] : Dataset), p.2.Nodup) ∧
      ("cat", ["Fruit"]) ∈ ([("cat", ["Fruit"])] : Dataset) ∧ "Fruit" ∈ ["Fruit"]) ∧
    (((lookupIdx (buildCategoryIndex [("cat", ["Fruit"])]) "Fruit").getD []).count "cat" = 1 ∧
      (lookupIdx (buildCategoryIndex [("cat", ["Fruit"])]) "Fruit").getD [] =
        (([("cat", ["Fruit"])] : Dataset).filter
          (fun p => decide ("Fruit" ∈ p.2))).map Prod.fst) :=
  ⟨⟨by decide, by decide, by decide, by decide⟩,
    index_completeness [("cat", ["Fruit"])] (by decide) (by decide)
      "cat" ["Fruit"] (by decide) "Fruit" (by decide)⟩

/-- Claim C4: the sorted thin-category sequence is non-decreasing in
word-list length, is a permutation of the filtered thin categories, keeps
categories of equal word-list length in their original encounter order
(stability, stated as: filtering the sorted output at any fixed length gives
the same list as filtering the unsorted thin categories), and the unsorted
thin categories themselves are a sublist of the index (encounter order). -/
theorem thin_sort_order_stable (d : Dataset) :
    List.Sorted lenLe (sorted_small_categories (buildCategoryIndex d)) ∧
    List.Perm (sorted_small_categories (buildCategoryIndex d))
      (small_categories (buildCategoryIndex d)) ∧
    (∀ n : Nat,
      (sorted_small_categories (buildCategoryIndex d)).filter
          (fun p => decide (p.2.length = n)) =
        (small_categories (buildCategoryIndex d)).filter
          (fun p => decide (p.2.length = n))) ∧
    List.Sublist (small_categories (buildCategoryIndex d)) (buildCategoryIndex d) :=
  ⟨List.sorted_insertionSort lenLe _, List.perm_insertionSort lenLe _,
    fun n => filter_insertionSort n _, List.filter_sublist _⟩

/-- Claim C5: parsing the JSON value written to `data/thin_categories.json`
yields exactly the in-memory thin-categories mapping, with the same keys in
the same order and the same word lists. -/
theorem thin_round_trip (d : Dataset) :
    decodeThin (encodeThin (thin_categories d)) = some (thin_categories d) :=
  decodeThin_encodeThin (thin_categories d)

/-- Claim C6: the percentage computation fails (Python `ZeroDivisionError`,
embedded as `none`) exactly when the number of non-excluded categories is
zero, which in turn holds exactly when every category of every word in the
dataset starts with an excluded name. -/
theorem percentage_divide_by_zero_iff (d : Dataset) :
    (percentage (buildCategoryIndex d) = none ↔
      total_categories (buildCategoryIndex d) = 0) ∧
    (total_categories (buildCategoryIndex d) = 0 ↔
      ∀ p ∈ d, ∀ c ∈ p.2,
        (strStartsWith c "Starts with" || strStartsWith c "Ends with") = true) := by
  constructor
  · unfold percentage
    by_cases h : total_categories (buildCategoryIndex d) = 0 <;> simp [h]
  · rw [total_categories, List.length_eq_zero, List.filter_eq_nil_iff]
    constructor
    · intro h p hp c hc
      have hkey : c ∈ (buildCategoryIndex d).map Prod.fst :=
        (mem_keys_build d c).mpr ⟨p, hp, hc⟩
      exact (not_nonexcluded_iff _ _).mp (h c hkey)
    · intro h c hkey
      obtain ⟨p, hp, hc⟩ := (mem_keys_build d c).mp hkey
      exact (not_nonexcluded_iff _ _).mpr (h p hp c hc)

/-- Claim C7: on the dataset cat→[Fruit], dog→[Pet], ant→[Insect, Pet], the
thin output is exactly Fruit:[cat], Insect:[ant], Pet:[dog, ant] in that
order, and the summary reports total = 3, usable = 0, thin = 3, usable
percentage 0.0. -/
theorem concrete_scenario_run :
    sorted_small_categories
        (buildCategoryIndex [("cat", ["Fruit"]), ("dog", ["Pet"]), ("ant", ["Insect", "Pet"])]) =
      [("Fruit", ["cat"]), ("Insect", ["ant"]), ("Pet", ["dog", "ant"])] ∧
    total_categories
        (buildCategoryIndex [("cat", ["Fruit"]), ("dog", ["Pet"]), ("ant", ["Insect", "Pet"])]) = 3 ∧
    usable_categories
        (buildCategoryIndex [("cat", ["Fruit"]), ("dog", ["Pet"]), ("ant", ["Insect", "Pet"])]) = 0 ∧
    (sorted_small_categories
        (buildCategoryIndex [("cat", ["Fruit"]), ("dog", ["Pet"]), ("ant", ["Insect", "Pet"])])).length = 3 ∧
    percentage
        (buildCategoryIndex [("cat", ["Fruit"]), ("dog", ["Pet"]), ("ant", ["Insect", "Pet"])]) = some 0 := by
  refine ⟨by decide, by decide, by decide, by decide, ?_⟩
  have h1 : total_categories
      (buildCategoryIndex [("cat", ["Fruit"]), ("dog", ["Pet"]), ("ant", ["Insect", "Pet"])]) = 3 := by
    decide
  have h2 : usable_categories
      (buildCategoryIndex [("cat", ["Fruit"]), ("dog", ["Pet"]), ("ant", ["Insect", "Pet"])]) = 0 := by
    decide
  unfold percentage
  rw [h1, h2]
  norm_num

/-- Claim C8: in any dataset whose index has a category "Starts with A" with
exactly one word, that category neither appears in the thin-categories
output (under any word list) nor in the filtered key list whose length is
the summary's total. -/
theorem excluded_scenario (d : Dataset) (ws : List String)
    (h : lookupIdx (buildCategoryIndex d) "Starts with A" = some ws)
    (hlen : ws.length = 1) :
    (∀ ws', ("Starts with A", ws') ∉ thin_categories d) ∧
    "Starts with A" ∉ ((buildCategoryIndex d).map Prod.fst).filter
      (fun c => !strStartsWith c "Starts with" && !strStartsWith c "Ends with") := by
  have hsw : strStartsWith "Starts with A" "Starts with" = true := by decide
  constructor
  · intro ws' hmem
    rw [thin_categories, sorted_small_categories] at hmem
    have hmem' : ("Starts with A", ws') ∈ small_categories (buildCategoryIndex d) :=
      (List.mem_insertionSort lenLe).mp hmem
    have hbool := (List.mem_filter.mp hmem').2
    simp [isSmall, hsw] at hbool
  · intro hmem
    have hbool := (List.mem_filter.mp hmem).2
    simp [hsw] at hbool

theorem excluded_scenario_witness :
    (lookupIdx (buildCategoryIndex [("apple", ["Starts with A"])]) "Starts with A" =
        some ["apple"] ∧ (["apple"] : List String).length = 1) ∧
    ((∀ ws', ("Starts with A", ws') ∉ thin_categories [("apple", ["Starts with A"])]) ∧
      "Starts with A" ∉ ((buildCategoryIndex [("apple", ["Starts with A"])]).map Prod.fst).filter
        (fun c => !strStartsWith c "Starts with" && !strStartsWith c "Ends with")) :=
  ⟨⟨by decide, by decide⟩,
    excluded_scenario [("apple", ["Starts with A"])] ["apple"] (by decide) (by decide)⟩

/-- Claim C9: every category present in the built index has a non-empty word
list, and its name occurs in the category list of at least one word of the
source dataset. -/
theorem index_nonempty_invariant (d : Dataset) (c : String) (ws : List String)
    (h : lookupIdx (buildCategoryIndex d) c = some ws) :
    ws ≠ [] ∧ ∃ p ∈ d, c ∈ p.2 := by
  have hmem : (c, ws) ∈ buildCategoryIndex d := lookup_some_mem _ _ _ h
  constructor
  · exact nonempty_buildFrom d [] (by simp) (c, ws) hmem
  · exact (mem_keys_build d c).mp (List.mem_map.mpr ⟨(c, ws), hmem, rfl⟩)

theorem index_nonempty_invariant_witness :
    lookupIdx (buildCategoryIndex [("cat", ["Fruit"])]) "Fruit" = some ["cat"] ∧
    ((["cat"] : List String) ≠ [] ∧ ∃ p ∈ ([("cat", ["Fruit"])] : Dataset), "Fruit" ∈ p.2) :=
  ⟨by decide, index_nonempty_invariant [("cat", ["Fruit"])] "Fruit" ["cat"] (by decide)⟩

/-- Claim C10: the analysis is deterministic — equal input datasets produce
equal outputs (index, thin mapping, written JSON, and summary statistics). -/
theorem analysis_deterministic (d₁ d₂ : Dataset) (h : d₁ = d₂) :
    analyze d₁ = analyze d₂ :=
  congrArg analyze h

theorem analysis_deterministic_witness :
    analyze [("cat", ["Fruit"]), ("dog", ["Pet"])] =
      analyze [("cat", ["Fruit"]), ("dog", ["Pet"])] :=
  analysis_deterministic [("cat", ["Fruit"]), ("dog", ["Pet"])]
    [("cat", ["Fruit"]), ("dog", ["Pet"])] rfl

/-- Claim C1 fails on the code: on the dataset w1..w4→[Big], w5→[Starts with
A], there is exactly 1 non-excluded category with 4 or more words (so the
claimed 'usable' is 1), but the code's `usable_categories` is 0 because its
inner check ranges over all category names instead of the counted one; hence
the printed usable + thin = 0 + 0 differs from total = 1. -/
theorem usable_statistic_code_bug :
    total_categories (buildCategoryIndex
      [("w1", ["Big"]), ("w2", ["Big"]), ("w3", ["Big"]), ("w4", ["Big"]),
        ("w5", ["Starts with A"])]) = 1 ∧
    ((buildCategoryIndex
      [("w1", ["Big"]), ("w2", ["Big"]), ("w3", ["Big"]), ("w4", ["Big"]),
        ("w5", ["Starts with A"])]).filter
      (fun p => (!strStartsWith p.1 "Starts with" && !strStartsWith p.1 "Ends with") &&
        decide (4 ≤ p.2.length))).length = 1 ∧
    usable_categories (buildCategoryIndex
      [("w1", ["Big"]), ("w2", ["Big"]), ("w3", ["Big"]), ("w4", ["Big"]),
        ("w5", ["Starts with A"])]) = 0 ∧
    (sorted_small_categories (buildCategoryIndex
      [("w1", ["Big"]), ("w2", ["Big"]), ("w3", ["Big"]), ("w4", ["Big"]),
        ("w5", ["Starts with A"])])).length = 0 ∧
    usable_categories (buildCategoryIndex
        [("w1", ["Big"]), ("w2", ["Big"]), ("w3", ["Big"]), ("w4", ["Big"]),
          ("w5", ["Starts with A"])]) +
      (sorted_small_categories (buildCategoryIndex
        [("w1", ["Big"]), ("w2", ["Big"]), ("w3", ["Big"]), ("w4", ["Big"]),
          ("w5", ["Starts with A"])])).length ≠
      total_categories (buildCategoryIndex
        [("w1", ["Big"]), ("w2", ["Big"]), ("w3", ["Big"]), ("w4", ["Big"]),
          ("w5", ["Starts with A"])]) := by
  refine ⟨by decide, by decide, by decide, by decide, by decide⟩

end Connecdoku
